import Mathlib

/-!
Verification of the PyDDM parameter-dependence framework
(`pyddm/ddm/models/base.py` and `pyddm/ddm/models/bound.py`).

The Python code is shallowly embedded: a Python instance `__dict__` is an
association list from attribute names to values, a class is a record of its
(class-level) declarations, and each dunder method of `Dependence` becomes a
Lean function on these records.  Python exceptions become an explicit error
type; Python float parameter values are modelled as exact rationals (or reals
where the exponential is involved).
-/

namespace PyDDM

/-- A value stored in an instance `__dict__`: either a parameter value of the
generic value type `V`, or a list of strings (the `required_conditions`
attribute, which `Dependence.__init__` binds to the empty list). -/
inductive PVal (V : Type) where
  | v : V → PVal V
  | strList : List String → PVal V
deriving DecidableEq

/-- A Python dict with string keys, as an insertion-ordered association list. -/
abbrev Dict (α : Type) := List (String × α)

/-- `d[k]` lookup: first entry with the key, if any. -/
def dget {α : Type} : Dict α → String → Option α
  | [], _ => none
  | (k, x) :: rest, n => if k = n then some x else dget rest n

/-- `d[k] = x` assignment: replace the value in place if the key is present,
otherwise append the pair at the end (Python dict insertion-order semantics). -/
def dset {α : Type} : Dict α → String → α → Dict α
  | [], n, x => [(n, x)]
  | (k, y) :: rest, n, x =>
    if k = n then (k, x) :: rest else (k, y) :: dset rest n x

/-- `list(d.keys())`. -/
def dkeys {α : Type} (d : Dict α) : List String := d.map Prod.fst

/-- `d.update(kw)`: fold every pair of `kw` into `d` (later pairs win). -/
def dupdate {α : Type} (d kw : Dict α) : Dict α :=
  kw.foldl (fun a p => dset a p.1 p.2) d

/-- Python `dict.__eq__`: same key sets and equal values under every key. -/
def dictEqB {α : Type} [DecidableEq α] (d1 d2 : Dict α) : Bool :=
  (dkeys d1).all (fun k => dget d1 k == dget d2 k) &&
    (dkeys d2).all (fun k => dget d2 k == dget d1 k)

/-- The exceptions the embedded code can raise.  `missingDeclaration` stands
for the `assert hasattr(...)` failures in `Dependence.__init__`;
`parameterMismatch` for the failed
`assert passed_args == expected_args, "Provided %s arguments, expected %s" ...`
(it carries the two sorted name lists that the message interpolates);
`lookupError` for the `raise LookupError` in `__setattr__`/`__delattr__`. -/
inductive PyErr where
  | missingDeclaration (what : String)
  | parameterMismatch (provided expected : List String)
  | lookupError
  | notImplementedError
deriving DecidableEq

/-- The class-level declarations the `Dependence` machinery reads off a
(sub-sub-)class: the class `__name__`, and the optional class attributes
`depname`, `name`, `required_parameters`, `default_parameters` and
`required_conditions` (`none` models the attribute being absent, so that
`hasattr` is `Option.isSome`). -/
structure ClassSpec (V : Type) where
  clsName : String
  depname : Option String := none
  name : Option String := none
  required_parameters : Option (List String) := none
  default_parameters : Option (Dict V) := none
  required_conditions : Option (List String) := none

/-- `Dependence.__setattr__(self, name, val)`: assign only when the name is a
required parameter, otherwise `raise LookupError`. -/
def dep_setattr {V : Type} (req : List String) (d : Dict (PVal V))
    (n : String) (x : PVal V) : Except PyErr (Dict (PVal V)) :=
  if n ∈ req then .ok (dset d n x) else .error .lookupError

/-- `Dependence.__delattr__(self, name)`: unconditionally `raise LookupError`. -/
def dep_delattr {V : Type} (_d : Dict (PVal V)) (_n : String) :
    Except PyErr (Dict (PVal V)) :=
  .error .lookupError

/-- The instance `__dict__` after a `setattr` attempt: the updated dict on
success, the untouched dict when the exception was raised (the `raise`
happens before any mutation). -/
def setattrFinal {V : Type} (req : List String) (d : Dict (PVal V))
    (n : String) (x : PVal V) : Dict (PVal V) :=
  match dep_setattr req d n x with
  | .ok d2 => d2
  | .error _ => d

/-- The instance `__dict__` after a `delattr` attempt (always unchanged). -/
def delattrFinal {V : Type} (d : Dict (PVal V)) (n : String) : Dict (PVal V) :=
  match dep_delattr d n with
  | .ok d2 => d2
  | .error _ => d

/-- The loop `for key, value in args.items(): setattr(self, key, value)` of
`Dependence.__init__`, threading the possible `LookupError`. -/
def bindParams {V : Type} (req : List String) :
    Dict (PVal V) → Dict V → Except PyErr (Dict (PVal V))
  | d, [] => .ok d
  | d, p :: rest =>
    match dep_setattr req d p.1 (.v p.2) with
    | .ok d2 => bindParams req d2 rest
    | .error e => .error e

/-- The same loop ignoring the (unreachable) exception path. -/
def bindAllPure {V : Type} : Dict (PVal V) → Dict V → Dict (PVal V)
  | d, [] => d
  | d, p :: rest => bindAllPure (dset d p.1 (.v p.2)) rest

/-- Lexicographic comparison of code-point sequences (how Python compares
strings). -/
def charsLe : List Char → List Char → Bool
  | [], _ => true
  | _ :: _, [] => false
  | a :: as, b :: bs =>
    if a.toNat < b.toNat then true
    else if b.toNat < a.toNat then false
    else charsLe as bs

/-- Python's `<=` on strings: code-point lexicographic order. -/
def pyStrLe (a b : String) : Prop := charsLe a.data b.data = true

instance : DecidableRel pyStrLe :=
  fun a b => instDecidableEqBool (charsLe a.data b.data) true

/-- Python `sorted` on a list of strings. -/
def strSort (l : List String) : List String :=
  List.insertionSort pyStrLe l

/-- `Dependence.__init__(self, **kwargs)`.  Returns the class record after the
call (because `args = self.default_parameters; args.update(kwargs)` mutates
the class-level dict in place) together with either the new instance
`__dict__` or the exception raised. -/
def dep_init {V : Type} (cls : ClassSpec V) (kwargs : Dict V) :
    ClassSpec V × Except PyErr (Dict (PVal V)) :=
  match cls.depname with
  | none => (cls, .error (.missingDeclaration "depname"))
  | some _ =>
    match cls.name with
    | none => (cls, .error (.missingDeclaration "name"))
    | some _ =>
      match cls.required_parameters with
      | none => (cls, .error (.missingDeclaration "required_parameters"))
      | some req =>
        let margs := match cls.default_parameters with
          | some dflt => dupdate dflt kwargs
          | none => kwargs
        let cls1 := match cls.default_parameters with
          | some _ => { cls with default_parameters := some margs }
          | none => cls
        let d0 : Dict (PVal V) := match cls.required_conditions with
          | some _ => []
          | none => [("required_conditions", PVal.strList [])]
        let passed := strSort (dkeys margs)
        let expected := strSort req
        if passed = expected then
          (cls1, bindParams req d0 margs)
        else
          (cls1, .error (.parameterMismatch passed expected))

/-- The classes of the repository (`Dependence`, `Bound`, and the three
concrete bound variants of `bound.py`). -/
inductive PyClass where
  | dependence
  | bound
  | boundConstant
  | boundCollapsingLinear
  | boundCollapsingExponential
deriving DecidableEq

/-- `issubclass(a, b)` over the repository hierarchy: the three variants
derive from `Bound`, which derives from `Dependence`. -/
def pySubclass (a b : PyClass) : Bool :=
  a == b || b == .dependence || (b == .bound && a != .dependence)

/-- The class-level declarations of each repository class.  `Dependence`
declares nothing; `Bound` adds `depname = "Bound"`; each variant adds its
`name` and `required_parameters`.  None of them declares
`default_parameters` or `required_conditions`. -/
def classSpec (V : Type) : PyClass → ClassSpec V
  | .dependence => { clsName := "Dependence" }
  | .bound => { clsName := "Bound", depname := some "Bound" }
  | .boundConstant =>
    { clsName := "BoundConstant", depname := some "Bound",
      name := some "constant", required_parameters := some ["B"] }
  | .boundCollapsingLinear =>
    { clsName := "BoundCollapsingLinear", depname := some "Bound",
      name := some "collapsing_linear", required_parameters := some ["B", "t"] }
  | .boundCollapsingExponential =>
    { clsName := "BoundCollapsingExponential", depname := some "Bound",
      name := some "collapsing_exponential",
      required_parameters := some ["B", "tau"] }

/-- The `required_parameters` list of a repository class (empty when the
attribute is absent; only used on classes that declare it). -/
def reqOf (c : PyClass) : List String :=
  ((classSpec Unit c).required_parameters).getD []

/-- A live instance: its exact class and its `__dict__`. -/
structure Inst (V : Type) where
  cls : PyClass
  dict : Dict (PVal V)

/-- Constructing an instance of a repository class: run
`Dependence.__init__` against the class declarations.  (No repository class
declares `default_parameters`, so the class record cannot change.) -/
def construct {V : Type} (c : PyClass) (kwargs : Dict V) :
    Except PyErr (Inst V) :=
  match (dep_init (classSpec V c) kwargs).2 with
  | .ok d => .ok ⟨c, d⟩
  | .error e => .error e

/-- `a == b` for instances: `Dependence.__eq__` checks
`isinstance(other, self.__class__)` and then `self.__dict__ == other.__dict__`
(the reflected call never fires first here since no subclass overrides
`__eq__`, and `__eq__` never returns `NotImplemented`). -/
def pyEq {V : Type} [DecidableEq V] (a b : Inst V) : Bool :=
  pySubclass b.cls a.cls && dictEqB a.dict b.dict

/-- `repr` of a stored value, delegating to the value type's `repr` function.
The only string list ever stored is the empty `required_conditions` list,
whose Python `repr` is `"[]"` (and it is never reached by
`Dependence.__repr__`, which only visits required parameters). -/
def reprPVal {V : Type} (reprV : V → String) : PVal V → String
  | .v x => reprV x
  | .strList _ => "[]"

/-- `getattr(self, p).__repr__()` inside `Dependence.__repr__`; the attribute
is always present on a constructed instance, so the `none` fallback is
unreachable there. -/
def reprAttr {V : Type} (reprV : V → String) (d : Dict (PVal V))
    (p : String) : String :=
  match dget d p with
  | some x => reprPVal reprV x
  | none => ""

/-- The parameter-rendering loop of `Dependence.__repr__`: append
`p + "=" + repr(value)` for each required parameter, with `", "` after every
parameter other than `required_parameters[-1]`. -/
def reprParams {V : Type} (reprV : V → String) (req : List String)
    (d : Dict (PVal V)) : String :=
  req.foldl
    (fun acc p =>
      acc ++ p ++ "=" ++ reprAttr reprV d p ++
        (if p = req.getLastD "" then "" else ", "))
    ""

/-- `Dependence.__repr__`: class `__name__`, then the rendered parameters in
parentheses (rendered only when the class attribute `name` is truthy). -/
def reprInst {V : Type} (reprV : V → String) (i : Inst V) : String :=
  (classSpec V i.cls).clsName ++ "(" ++
    (if ((classSpec V i.cls).name).getD "" ≠ "" then
      reprParams reprV (((classSpec V i.cls).required_parameters).getD []) i.dict
    else "") ++ ")"

/-- `Dependence.__str__` is defined as `self.__repr__()`. -/
def strInst {V : Type} (reprV : V → String) (i : Inst V) : String :=
  reprInst reprV i

/-- `Dependence.__hash__`: `hash(repr(self))`. -/
def pyHash {V : Type} (reprV : V → String) (i : Inst V) : UInt64 :=
  (reprInst reprV i).hash

/-- `self.<p>` parameter access on an instance. -/
def getParam {V : Type} (i : Inst V) (p : String) : Option V :=
  match dget i.dict p with
  | some (.v x) => some x
  | _ => none

/-- `BoundConstant.get_bound(self, t, conditions)`: `return self.B`. -/
def boundConstant_get_bound {V : Type} (i : Inst V) (_t : V) : Option V :=
  getParam i "B"

/-- `BoundCollapsingLinear.get_bound(self, t, conditions)`:
`return max(self.B - self.t*t, 0.)` (the slope parameter is itself named
`t`). -/
def boundCollapsingLinear_get_bound (i : Inst ℚ) (t : ℚ) : Option ℚ := do
  let b ← getParam i "B"
  let s ← getParam i "t"
  pure (max (b - s * t) 0)

/-- `BoundCollapsingExponential.get_bound(self, t, conditions)`:
`return self.B * np.exp(-self.tau*t)`.  (`np.exp` is the real exponential;
`Real.exp` has no executable code, hence `noncomputable`.) -/
noncomputable def boundCollapsingExponential_get_bound (i : Inst ℝ) (t : ℝ) : Option ℝ := do
  let b ← getParam i "B"
  let tau ← getParam i "tau"
  pure (b * Real.exp (-tau * t))

/-- The smallest `e` with `d ∣ 10 ^ e` (searched up to 40; every value used
in the specification is an exact short decimal). -/
def findExp (d : Nat) : Nat :=
  (((List.range 41).find? (fun e => decide (d ∣ 10 ^ e)))).getD 17

/-- Pad a digit string with leading zeros to the given width. -/
def padLeftZeros (s : String) (n : Nat) : String :=
  String.mk (List.replicate (n - s.length) '0') ++ s

/-- Python `repr` of a float whose value is an exact finite decimal: the
shortest decimal digit string, with at least one digit after the point
(`repr(1.0) = "1.0"`, `repr(0.1) = "0.1"`).  Computed from the numerator and
denominator of the reduced fraction: with `e` minimal such that
`den ∣ 10 ^ e` (at least 1), the digits are those of `|num| · 10 ^ e / den`,
split `e` places from the right. -/
def pyFloatRepr (q : ℚ) : String :=
  let sgn := if q.num < 0 then "-" else ""
  let e0 := findExp q.den
  let e := if e0 = 0 then 1 else e0
  let n := q.num.natAbs * 10 ^ e / q.den
  sgn ++ toString (n / 10 ^ e) ++ "." ++ padLeftZeros (toString (n % 10 ^ e)) e

/-! ### Dictionary lemmas -/

theorem dkeys_nil {α : Type} : dkeys ([] : Dict α) = [] := rfl

theorem dkeys_cons {α : Type} (n : String) (x : α) (d : Dict α) :
    dkeys ((n, x) :: d) = n :: dkeys d := rfl

theorem dget_dset {α : Type} (d : Dict α) (n : String) (x : α) (k : String) :
    dget (dset d n x) k = if k = n then some x else dget d k := by
  induction d with
  | nil =>
    by_cases h : k = n
    · subst h; simp [dset, dget]
    · have h2 : ¬ n = k := fun he => h he.symm
      simp [dset, dget, h, h2]
  | cons p rest ih =>
    obtain ⟨k1, y⟩ := p
    by_cases h1 : k1 = n
    · subst h1
      rw [show dset ((k1, y) :: rest) k1 x = (k1, x) :: rest from by
        simp [dset]]
      by_cases h2 : k = k1
      · subst h2; simp [dget]
      · have h3 : ¬ k1 = k := fun he => h2 he.symm
        simp [dget, h2, h3]
    · rw [show dset ((k1, y) :: rest) n x = (k1, y) :: dset rest n x from by
        simp [dset, h1]]
      by_cases h2 : k1 = k
      · subst h2
        have h3 : ¬ k1 = n := h1
        simp [dget, h3]
      · simp [dget, h2, ih]

theorem mem_dkeys_dset {α : Type} (d : Dict α) (n : String) (x : α)
    (k : String) : k ∈ dkeys (dset d n x) ↔ k = n ∨ k ∈ dkeys d := by
  induction d with
  | nil => simp [dset, dkeys]
  | cons p rest ih =>
    obtain ⟨k1, y⟩ := p
    by_cases h1 : k1 = n
    · subst h1
      rw [show dset ((k1, y) :: rest) k1 x = (k1, x) :: rest from by
        simp [dset]]
      rw [dkeys_cons, dkeys_cons]
      simp
    · rw [show dset ((k1, y) :: rest) n x = (k1, y) :: dset rest n x from by
        simp [dset, h1]]
      rw [dkeys_cons, dkeys_cons]
      simp [ih]
      tauto

theorem dget_eq_none_iff {α : Type} (d : Dict α) (k : String) :
    dget d k = none ↔ k ∉ dkeys d := by
  induction d with
  | nil => simp [dget, dkeys]
  | cons p rest ih =>
    obtain ⟨k1, y⟩ := p
    rw [dkeys_cons]
    by_cases h : k1 = k
    · subst h
      simp [dget]
    · have h2 : ¬ k = k1 := fun he => h he.symm
      simp [dget, h, h2, ih]

theorem dget_isSome_iff {α : Type} (d : Dict α) (k : String) :
    (dget d k).isSome = true ↔ k ∈ dkeys d := by
  have h := dget_eq_none_iff d k
  cases h2 : dget d k with
  | none => simp [h2] at h; simp [h]
  | some x =>
    simp [h2] at h
    simp [h]

theorem nodup_dkeys_dset {α : Type} (d : Dict α) (n : String) (x : α)
    (h : (dkeys d).Nodup) : (dkeys (dset d n x)).Nodup := by
  induction d with
  | nil => simp [dset, dkeys]
  | cons p rest ih =>
    obtain ⟨k1, y⟩ := p
    rw [dkeys_cons, List.nodup_cons] at h
    by_cases h1 : k1 = n
    · subst h1
      rw [show dset ((k1, y) :: rest) k1 x = (k1, x) :: rest from by
        simp [dset]]
      rw [dkeys_cons, List.nodup_cons]
      exact h
    · rw [show dset ((k1, y) :: rest) n x = (k1, y) :: dset rest n x from by
        simp [dset, h1]]
      rw [dkeys_cons, List.nodup_cons]
      refine ⟨fun hmem => ?_, ih h.2⟩
      rw [mem_dkeys_dset] at hmem
      rcases hmem with h2 | h2
      · exact h1 h2
      · exact h.1 h2

theorem dget_dupdate {α : Type} (kw : Dict α) (d : Dict α) (k : String)
    (hn : (dkeys kw).Nodup) :
    dget (dupdate d kw) k =
      match dget kw k with
      | some v => some v
      | none => dget d k := by
  induction kw generalizing d with
  | nil => simp [dupdate, dget]
  | cons p rest ih =>
    obtain ⟨n, x⟩ := p
    rw [dkeys_cons, List.nodup_cons] at hn
    have hstep : dupdate d ((n, x) :: rest) = dupdate (dset d n x) rest := rfl
    rw [hstep, ih _ hn.2]
    by_cases h : k = n
    · subst h
      have hnone : dget rest k = none := (dget_eq_none_iff rest k).2 hn.1
      have hk : dget ((k, x) :: rest) k = some x := by simp [dget]
      simp [hnone, hk, dget_dset]
    · have hkn : ¬ n = k := fun h2 => h h2.symm
      have hk : dget ((n, x) :: rest) k = dget rest k := by simp [dget, hkn]
      cases h2 : dget rest k <;> simp [hk, h2, dget_dset, h]

theorem mem_dkeys_dupdate {α : Type} (kw : Dict α) (d : Dict α) (k : String) :
    k ∈ dkeys (dupdate d kw) ↔ k ∈ dkeys d ∨ k ∈ dkeys kw := by
  induction kw generalizing d with
  | nil => simp [dupdate, dkeys]
  | cons p rest ih =>
    obtain ⟨n, x⟩ := p
    have hstep : dupdate d ((n, x) :: rest) = dupdate (dset d n x) rest := rfl
    rw [hstep, ih, mem_dkeys_dset, dkeys_cons]
    simp
    tauto

theorem nodup_dkeys_dupdate {α : Type} (kw : Dict α) (d : Dict α)
    (h : (dkeys d).Nodup) : (dkeys (dupdate d kw)).Nodup := by
  induction kw generalizing d with
  | nil => exact h
  | cons p rest ih =>
    exact ih (dset d p.1 p.2) (nodup_dkeys_dset d p.1 p.2 h)

theorem bindAllPure_eq_dupdate {V : Type} (args : Dict V)
    (d0 : Dict (PVal V)) :
    bindAllPure d0 args = dupdate d0 (args.map (fun p => (p.1, PVal.v p.2))) := by
  induction args generalizing d0 with
  | nil => rfl
  | cons p rest ih =>
    obtain ⟨n, x⟩ := p
    have h1 : bindAllPure d0 ((n, x) :: rest) =
        bindAllPure (dset d0 n (.v x)) rest := rfl
    rw [h1, ih]
    rfl

theorem dkeys_map_v {V : Type} (args : Dict V) :
    dkeys (args.map (fun p => (p.1, PVal.v p.2))) = dkeys args := by
  simp [dkeys]

theorem dget_map_v {V : Type} (args : Dict V) (k : String) :
    dget (args.map (fun p => (p.1, PVal.v p.2))) k = (dget args k).map .v := by
  induction args with
  | nil => simp [dget]
  | cons p rest ih =>
    obtain ⟨n, x⟩ := p
    by_cases h : n = k <;> simp [dget, h, ih]

theorem dget_bindAllPure {V : Type} (args : Dict V) (d0 : Dict (PVal V))
    (k : String) (hn : (dkeys args).Nodup) :
    dget (bindAllPure d0 args) k =
      match dget args k with
      | some v => some (.v v)
      | none => dget d0 k := by
  rw [bindAllPure_eq_dupdate]
  rw [dget_dupdate _ _ _ (by rw [dkeys_map_v]; exact hn)]
  rw [dget_map_v]
  cases dget args k <;> simp

theorem mem_dkeys_bindAllPure {V : Type} (args : Dict V) (d0 : Dict (PVal V))
    (k : String) :
    k ∈ dkeys (bindAllPure d0 args) ↔ k ∈ dkeys d0 ∨ k ∈ dkeys args := by
  rw [bindAllPure_eq_dupdate, mem_dkeys_dupdate, dkeys_map_v]

theorem bindParams_ok {V : Type} (args : Dict V) (req : List String)
    (d0 : Dict (PVal V)) (h : ∀ k ∈ dkeys args, k ∈ req) :
    bindParams req d0 args = .ok (bindAllPure d0 args) := by
  induction args generalizing d0 with
  | nil => rfl
  | cons p rest ih =>
    obtain ⟨n, x⟩ := p
    have hn : n ∈ req := h n (by rw [dkeys_cons]; exact List.mem_cons_self n _)
    have h1 : bindParams req d0 ((n, x) :: rest) =
        bindParams req (dset d0 n (.v x)) rest := by
      simp [bindParams, dep_setattr, hn]
    rw [h1, ih _ (fun k hk => h k (by rw [dkeys_cons]; exact List.mem_cons_of_mem _ hk))]
    rfl

theorem dictEqB_iff {α : Type} [DecidableEq α] (d1 d2 : Dict α) :
    dictEqB d1 d2 = true ↔ ∀ k, dget d1 k = dget d2 k := by
  constructor
  · intro h k
    simp [dictEqB] at h
    by_cases h1 : k ∈ dkeys d1
    · exact h.1 k h1
    · by_cases h2 : k ∈ dkeys d2
      · exact (h.2 k h2).symm
      · rw [(dget_eq_none_iff d1 k).2 h1, (dget_eq_none_iff d2 k).2 h2]
  · intro h
    simp [dictEqB]
    exact ⟨fun k _ => h k, fun k _ => (h k).symm⟩

/-! ### Sorting lemmas -/

theorem charsLe_cons (a b : Char) (as bs : List Char) :
    charsLe (a :: as) (b :: bs) =
      if a.toNat < b.toNat then true
      else if b.toNat < a.toNat then false
      else charsLe as bs := rfl

theorem charsLe_total : ∀ as bs : List Char,
    charsLe as bs = true ∨ charsLe bs as = true := by
  intro as
  induction as with
  | nil => intro bs; left; rfl
  | cons a as ih =>
    intro bs
    cases bs with
    | nil => right; rfl
    | cons b bs =>
      rcases Nat.lt_trichotomy a.toNat b.toNat with h | h | h
      · left; rw [charsLe_cons, if_pos h]
      · have h1 : ¬ a.toNat < b.toNat := by omega
        have h2 : ¬ b.toNat < a.toNat := by omega
        rcases ih bs with h3 | h3
        · left; rw [charsLe_cons, if_neg h1, if_neg h2]; exact h3
        · right; rw [charsLe_cons, if_neg h2, if_neg h1]; exact h3
      · right; rw [charsLe_cons, if_pos h]

theorem charsLe_trans : ∀ as bs cs : List Char, charsLe as bs = true →
    charsLe bs cs = true → charsLe as cs = true := by
  intro as
  induction as with
  | nil => intro bs cs h1 h2; rfl
  | cons a as ih =>
    intro bs cs h1 h2
    cases bs with
    | nil => simp [charsLe] at h1
    | cons b bs =>
      cases cs with
      | nil => simp [charsLe] at h2
      | cons c cs =>
        rw [charsLe_cons] at h1 h2 ⊢
        rcases Nat.lt_trichotomy a.toNat b.toNat with hab | hab | hab <;>
          rcases Nat.lt_trichotomy b.toNat c.toNat with hbc | hbc | hbc
        · rw [if_pos (by omega : a.toNat < c.toNat)]
        · rw [if_pos (by omega : a.toNat < c.toNat)]
        · rw [if_neg (by omega : ¬ b.toNat < c.toNat),
            if_pos (by omega : c.toNat < b.toNat)] at h2
          exact absurd h2 (by simp)
        · rw [if_pos (by omega : a.toNat < c.toNat)]
        · rw [if_neg (by omega : ¬ a.toNat < c.toNat),
            if_neg (by omega : ¬ c.toNat < a.toNat)]
          rw [if_neg (by omega : ¬ a.toNat < b.toNat),
            if_neg (by omega : ¬ b.toNat < a.toNat)] at h1
          rw [if_neg (by omega : ¬ b.toNat < c.toNat),
            if_neg (by omega : ¬ c.toNat < b.toNat)] at h2
          exact ih bs cs h1 h2
        · rw [if_neg (by omega : ¬ b.toNat < c.toNat),
            if_pos (by omega : c.toNat < b.toNat)] at h2
          exact absurd h2 (by simp)
        · rw [if_neg (by omega : ¬ a.toNat < b.toNat),
            if_pos (by omega : b.toNat < a.toNat)] at h1
          exact absurd h1 (by simp)
        · rw [if_neg (by omega : ¬ a.toNat < b.toNat),
            if_pos (by omega : b.toNat < a.toNat)] at h1
          exact absurd h1 (by simp)
        · rw [if_neg (by omega : ¬ a.toNat < b.toNat),
            if_pos (by omega : b.toNat < a.toNat)] at h1
          exact absurd h1 (by simp)

theorem charsLe_antisymm : ∀ as bs : List Char, charsLe as bs = true →
    charsLe bs as = true → as = bs := by
  intro as
  induction as with
  | nil =>
    intro bs h1 h2
    cases bs with
    | nil => rfl
    | cons b bs => simp [charsLe] at h2
  | cons a as ih =>
    intro bs h1 h2
    cases bs with
    | nil => simp [charsLe] at h1
    | cons b bs =>
      rw [charsLe_cons] at h1 h2
      rcases Nat.lt_trichotomy a.toNat b.toNat with h | h | h
      · rw [if_neg (by omega : ¬ b.toNat < a.toNat),
          if_pos (by omega : a.toNat < b.toNat)] at h2
        exact absurd h2 (by simp)
      · have hc : a = b := Char.eq_of_val_eq (UInt32.ext h)
        rw [if_neg (by omega : ¬ a.toNat < b.toNat),
          if_neg (by omega : ¬ b.toNat < a.toNat)] at h1
        rw [if_neg (by omega : ¬ b.toNat < a.toNat),
          if_neg (by omega : ¬ a.toNat < b.toNat)] at h2
        rw [hc, ih bs h1 h2]
      · rw [if_neg (by omega : ¬ a.toNat < b.toNat),
          if_pos (by omega : b.toNat < a.toNat)] at h1
        exact absurd h1 (by simp)

instance : IsTotal String pyStrLe :=
  ⟨fun a b => charsLe_total a.data b.data⟩

instance : IsTrans String pyStrLe :=
  ⟨fun a b c => charsLe_trans a.data b.data c.data⟩

instance : IsAntisymm String pyStrLe :=
  ⟨fun a b h1 h2 => String.ext (charsLe_antisymm a.data b.data h1 h2)⟩

theorem strSort_sorted (l : List String) :
    List.Sorted pyStrLe (strSort l) :=
  List.sorted_insertionSort _ l

theorem strSort_perm (l : List String) : List.Perm (strSort l) l :=
  List.perm_insertionSort _ l

theorem strSort_eq_of_perm {l1 l2 : List String} (h : List.Perm l1 l2) :
    strSort l1 = strSort l2 :=
  List.eq_of_perm_of_sorted
    (((strSort_perm l1).trans h).trans (strSort_perm l2).symm)
    (strSort_sorted l1) (strSort_sorted l2)

theorem perm_of_strSort_eq {l1 l2 : List String}
    (h : strSort l1 = strSort l2) : List.Perm l1 l2 :=
  ((strSort_perm l1).symm.trans (h ▸ List.Perm.refl (strSort l1))).trans
    (strSort_perm l2)

theorem perm_of_nodup_mem_iff {l1 l2 : List String} (h1 : l1.Nodup)
    (h2 : l2.Nodup) (h : ∀ k, k ∈ l1 ↔ k ∈ l2) : List.Perm l1 l2 :=
  List.perm_of_nodup_nodup_toFinset_eq h1 h2
    (Finset.ext fun a => by simp [List.mem_toFinset, h a])

/-! ### Characterizations of `dep_init` and `construct` -/

theorem dep_init_no_defaults {V : Type} (cls : ClassSpec V) (kwargs : Dict V)
    (dn nm : String) (req : List String)
    (hd : cls.depname = some dn) (hn : cls.name = some nm)
    (hr : cls.required_parameters = some req)
    (hdf : cls.default_parameters = none) :
    dep_init cls kwargs =
      (cls,
        if strSort (dkeys kwargs) = strSort req then
          bindParams req
            (match cls.required_conditions with
              | some _ => []
              | none => [("required_conditions", PVal.strList [])])
            kwargs
        else
          .error (.parameterMismatch (strSort (dkeys kwargs)) (strSort req))) := by
  simp [dep_init, hd, hn, hr, hdf]
  split <;> rfl

theorem dep_init_with_defaults {V : Type} (cls : ClassSpec V) (kwargs : Dict V)
    (dn nm : String) (req : List String) (dflt : Dict V)
    (hd : cls.depname = some dn) (hn : cls.name = some nm)
    (hr : cls.required_parameters = some req)
    (hdf : cls.default_parameters = some dflt) :
    dep_init cls kwargs =
      ({ cls with default_parameters := some (dupdate dflt kwargs) },
        if strSort (dkeys (dupdate dflt kwargs)) = strSort req then
          bindParams req
            (match cls.required_conditions with
              | some _ => []
              | none => [("required_conditions", PVal.strList [])])
            (dupdate dflt kwargs)
        else
          .error (.parameterMismatch (strSort (dkeys (dupdate dflt kwargs)))
            (strSort req))) := by
  simp [dep_init, hd, hn, hr, hdf]
  split <;> rfl

/-- Facts about the three constructible leaf classes, read off their
declarations. -/
theorem leaf_facts (V : Type) (c : PyClass)
    (h : c = .boundConstant ∨ c = .boundCollapsingLinear ∨
      c = .boundCollapsingExponential) :
    (classSpec V c).depname = some "Bound" ∧
    (classSpec V c).name.isSome = true ∧
    (classSpec V c).required_parameters = some (reqOf c) ∧
    (classSpec V c).default_parameters = none ∧
    (classSpec V c).required_conditions = none ∧
    "required_conditions" ∉ reqOf c ∧
    (reqOf c).Nodup := by
  rcases h with rfl | rfl | rfl <;>
    refine ⟨rfl, rfl, rfl, rfl, rfl, ?_, ?_⟩ <;> decide

/-- A successful construction pins down the instance completely: its class is
the requested (leaf) class, its `__dict__` is the `required_conditions`
binding followed by the keyword bindings, and the keyword names are a
permutation of the required parameters. -/
theorem construct_ok {V : Type} (c : PyClass) (kwargs : Dict V) (i : Inst V)
    (h : construct c kwargs = .ok i) :
    i.cls = c ∧
    i.dict = bindAllPure [("required_conditions", PVal.strList [])] kwargs ∧
    List.Perm (dkeys kwargs) (reqOf c) ∧
    (c = .boundConstant ∨ c = .boundCollapsingLinear ∨
      c = .boundCollapsingExponential) := by
  have hleaf : c = .boundConstant ∨ c = .boundCollapsingLinear ∨
      c = .boundCollapsingExponential := by
    cases c
    case dependence => simp [construct, dep_init, classSpec] at h
    case bound => simp [construct, dep_init, classSpec] at h
    all_goals simp
  obtain ⟨hd, hn, hr, hdf, hrc, hmem, hnd⟩ := leaf_facts V c hleaf
  obtain ⟨nm, hn⟩ := Option.isSome_iff_exists.1 hn
  rw [construct, dep_init_no_defaults (classSpec V c) kwargs "Bound" nm
    (reqOf c) hd hn hr hdf, hrc] at h
  by_cases hsort : strSort (dkeys kwargs) = strSort (reqOf c)
  · rw [if_pos hsort] at h
    have hperm : List.Perm (dkeys kwargs) (reqOf c) := perm_of_strSort_eq hsort
    rw [bindParams_ok kwargs (reqOf c) _
      (fun k hk => hperm.mem_iff.1 hk)] at h
    simp at h
    exact ⟨h.symm ▸ rfl, h.symm ▸ rfl, hperm, hleaf⟩
  · rw [if_neg hsort] at h
    simp at h

/-- `dget` through the binding loop at a key the loop never writes. -/
theorem dget_bindAllPure_not_mem {V : Type} (args : Dict V)
    (d0 : Dict (PVal V)) (k : String) (h : k ∉ dkeys args) :
    dget (bindAllPure d0 args) k = dget d0 k := by
  induction args generalizing d0 with
  | nil => rfl
  | cons p rest ih =>
    obtain ⟨n, x⟩ := p
    rw [dkeys_cons] at h
    simp at h
    have h1 : bindAllPure d0 ((n, x) :: rest) =
        bindAllPure (dset d0 n (.v x)) rest := rfl
    rw [h1, ih _ h.2, dget_dset, if_neg h.1]

/-- Key-set and `required_conditions` content of a constructed instance. -/
theorem construct_ok_dict {V : Type} (c : PyClass) (kwargs : Dict V)
    (i : Inst V) (h : construct c kwargs = .ok i) :
    (∀ k, k ∈ dkeys i.dict ↔ (k = "required_conditions" ∨ k ∈ reqOf c)) ∧
    dget i.dict "required_conditions" = some (.strList []) := by
  obtain ⟨hcls, hdict, hperm, hleaf⟩ := construct_ok c kwargs i h
  obtain ⟨-, -, -, -, -, hmem, -⟩ := leaf_facts V c hleaf
  constructor
  · intro k
    rw [hdict, mem_dkeys_bindAllPure, dkeys_cons, dkeys_nil, hperm.mem_iff]
    simp
  · rw [hdict, dget_bindAllPure_not_mem _ _ _
      (fun hk => hmem (hperm.mem_iff.1 hk))]
    simp [dget]

/-- The second component of `dep_init` once the three `hasattr` assertions
pass, as a single conditional on the sorted merged-argument names. -/
theorem dep_init_snd_eq {V : Type} (cls : ClassSpec V) (kwargs margs : Dict V)
    (dn nm : String) (req : List String)
    (hd : cls.depname = some dn) (hn : cls.name = some nm)
    (hr : cls.required_parameters = some req)
    (hm : margs = match cls.default_parameters with
      | some dflt => dupdate dflt kwargs
      | none => kwargs) :
    (dep_init cls kwargs).2 =
      (if strSort (dkeys margs) = strSort req then
        bindParams req
          (match cls.required_conditions with
            | some _ => []
            | none => [("required_conditions", PVal.strList [])])
          margs
      else
        .error (.parameterMismatch (strSort (dkeys margs)) (strSort req))) := by
  cases hdfc : cls.default_parameters with
  | none =>
    rw [hdfc] at hm
    simp at hm
    rw [hm, dep_init_no_defaults cls kwargs dn nm req hd hn hr hdfc]
  | some dflt =>
    rw [hdfc] at hm
    simp at hm
    rw [hm, dep_init_with_defaults cls kwargs dn nm req dflt hd hn hr hdfc]

/-- When the merged argument names are a permutation of the required
parameters, `dep_init` succeeds and the instance dict is the binding loop's
output. -/
theorem dep_init_ok_of_perm {V : Type} (cls : ClassSpec V)
    (kwargs margs : Dict V) (dn nm : String) (req : List String)
    (hd : cls.depname = some dn) (hn : cls.name = some nm)
    (hr : cls.required_parameters = some req)
    (hm : margs = match cls.default_parameters with
      | some dflt => dupdate dflt kwargs
      | none => kwargs)
    (hperm : List.Perm (dkeys margs) req) :
    (dep_init cls kwargs).2 =
      .ok (bindAllPure
        (match cls.required_conditions with
          | some _ => []
          | none => [("required_conditions", PVal.strList [])])
        margs) := by
  rw [dep_init_snd_eq cls kwargs margs dn nm req hd hn hr hm,
    if_pos (strSort_eq_of_perm hperm),
    bindParams_ok margs req _ (fun k hk => hperm.mem_iff.1 hk)]

/-- C1: construction succeeds exactly when the merged argument names
(declared defaults overlaid by the caller's keyword arguments) match
`required_parameters` exactly; on success the bound parameter values are the
merged mapping's values, and on any key-set mismatch it fails with the
assertion error reporting both the provided and the expected sorted name
lists. -/
theorem C1_construction_validation {V : Type} (cls : ClassSpec V)
    (kwargs margs : Dict V) (dn nm : String) (req : List String)
    (hd : cls.depname = some dn) (hn : cls.name = some nm)
    (hr : cls.required_parameters = some req)
    (hm : margs = match cls.default_parameters with
      | some dflt => dupdate dflt kwargs
      | none => kwargs)
    (hndK : (dkeys margs).Nodup) (hndR : req.Nodup) :
    ((∀ k, k ∈ dkeys margs ↔ k ∈ req) →
      ∃ d, (dep_init cls kwargs).2 = .ok d ∧
        ∀ p v, dget margs p = some v → dget d p = some (.v v))
    ∧ (¬ (∀ k, k ∈ dkeys margs ↔ k ∈ req) →
      (dep_init cls kwargs).2 =
        .error (.parameterMismatch (strSort (dkeys margs)) (strSort req))) := by
  constructor
  · intro hiff
    have hperm := perm_of_nodup_mem_iff hndK hndR hiff
    rw [dep_init_ok_of_perm cls kwargs margs dn nm req hd hn hr hm hperm]
    refine ⟨_, rfl, fun p v hp => ?_⟩
    rw [dget_bindAllPure margs _ p hndK, hp]
  · intro hne
    have hs : ¬ strSort (dkeys margs) = strSort req := fun hsort =>
      hne (fun k => (perm_of_strSort_eq hsort).mem_iff)
    rw [dep_init_snd_eq cls kwargs margs dn nm req hd hn hr hm, if_neg hs]

theorem C1_construction_validation_witness :
    (∃ d, (dep_init (classSpec ℚ .boundConstant) [("B", 1)]).2 = .ok d ∧
      dget d "B" = some (.v 1))
    ∧ (dep_init (classSpec ℚ .boundConstant) [("B", 1), ("extra", 2)]).2 =
        .error (.parameterMismatch ["B", "extra"] ["B"]) := by
  constructor
  · obtain ⟨d, hd2, hv⟩ :=
      (C1_construction_validation (classSpec ℚ .boundConstant) [("B", 1)]
        [("B", 1)] "Bound" "constant" ["B"] rfl rfl rfl rfl
        (by decide) (by decide)).1 (fun k => Iff.rfl)
    exact ⟨d, hd2, hv "B" 1 (by decide)⟩
  · have h :=
      (C1_construction_validation (classSpec ℚ .boundConstant)
        [("B", 1), ("extra", 2)] [("B", 1), ("extra", 2)] "Bound" "constant"
        ["B"] rfl rfl rfl rfl (by decide) (by decide)).2
        (fun hall => absurd ((hall "extra").1 (by decide)) (by decide))
    rw [h]
    rfl

/-- C2: on any instance, setting an attribute whose name is not among the
required parameters fails with the `LookupError` of `__setattr__` and leaves
the `__dict__` unchanged; deleting any attribute fails likewise and changes
nothing; setting a declared required parameter passes the guard. -/
theorem C2_immutability {V : Type} (req : List String) (d : Dict (PVal V))
    (n : String) (x : PVal V) :
    (n ∉ req →
      dep_setattr req d n x = .error .lookupError ∧ setattrFinal req d n x = d)
    ∧ (dep_delattr d n = .error .lookupError ∧ delattrFinal d n = d)
    ∧ (n ∈ req → ∃ d2, dep_setattr req d n x = .ok d2) := by
  refine ⟨fun h => ?_, ⟨rfl, rfl⟩, fun h => ?_⟩
  · constructor <;> simp [dep_setattr, setattrFinal, h]
  · exact ⟨dset d n x, by simp [dep_setattr, h]⟩

theorem C2_immutability_witness :
    (dep_setattr ["B"]
        [("required_conditions", PVal.strList []), ("B", PVal.v (1 : ℚ))]
        "extra" (PVal.v 2) = .error .lookupError)
    ∧ (setattrFinal ["B"]
        [("required_conditions", PVal.strList []), ("B", PVal.v (1 : ℚ))]
        "extra" (PVal.v 2) =
        [("required_conditions", PVal.strList []), ("B", PVal.v (1 : ℚ))])
    ∧ (dep_delattr
        [("required_conditions", PVal.strList []), ("B", PVal.v (1 : ℚ))]
        "B" = .error .lookupError)
    ∧ (∃ d2, dep_setattr ["B"]
        [("required_conditions", PVal.strList []), ("B", PVal.v (1 : ℚ))]
        "B" (PVal.v 3) = .ok d2) := by
  refine ⟨?_, ?_, ?_, ?_⟩
  · exact ((C2_immutability ["B"] _ "extra" (PVal.v 2)).1 (by decide)).1
  · exact ((C2_immutability ["B"] _ "extra" (PVal.v 2)).1 (by decide)).2
  · exact (C2_immutability ["B"]
      [("required_conditions", PVal.strList []), ("B", PVal.v (1 : ℚ))]
      "B" (PVal.v 3)).2.1.1
  · exact (C2_immutability ["B"] _ "B" (PVal.v 3)).2.2 (by decide)

/-- C6: for a class declaring `default_parameters`, omitting a defaulted
parameter binds it to the declared default, and supplying it explicitly
binds the supplied value (caller wins). -/
theorem C6_default_values {V : Type} (cls : ClassSpec V) (kwargs : Dict V)
    (dn nm : String) (req : List String) (dflt : Dict V) (p : String)
    (hd : cls.depname = some dn) (hn : cls.name = some nm)
    (hr : cls.required_parameters = some req)
    (hdf : cls.default_parameters = some dflt)
    (hndKw : (dkeys kwargs).Nodup)
    (hndK : (dkeys (dupdate dflt kwargs)).Nodup)
    (hperm : List.Perm (dkeys (dupdate dflt kwargs)) req) :
    (∀ v, dget dflt p = some v → p ∉ dkeys kwargs →
      ∃ d, (dep_init cls kwargs).2 = .ok d ∧ dget d p = some (.v v))
    ∧ (∀ w, dget kwargs p = some w →
      ∃ d, (dep_init cls kwargs).2 = .ok d ∧ dget d p = some (.v w)) := by
  have hm : dupdate dflt kwargs = match cls.default_parameters with
      | some dflt => dupdate dflt kwargs
      | none => kwargs := by rw [hdf]
  have hok := dep_init_ok_of_perm cls kwargs (dupdate dflt kwargs) dn nm req
    hd hn hr hm hperm
  constructor
  · intro v hv hp
    refine ⟨_, hok, ?_⟩
    rw [dget_bindAllPure _ _ p hndK,
      dget_dupdate kwargs dflt p hndKw,
      (dget_eq_none_iff kwargs p).2 hp, hv]
  · intro w hw
    refine ⟨_, hok, ?_⟩
    rw [dget_bindAllPure _ _ p hndK,
      dget_dupdate kwargs dflt p hndKw, hw]

/-- A hypothetical variant class declaring a default parameter value, used
as input data to the generic `Dependence.__init__` (no class of `bound.py`
declares `default_parameters`; the mechanism in `base.py` is generic). -/
def specWithDefault : ClassSpec ℚ where
  clsName := "VariantWithDefault"
  depname := some "Bound"
  name := some "with_default"
  required_parameters := some ["B", "t"]
  default_parameters := some [("t", 2)]

theorem C6_default_values_witness :
    (∃ d, (dep_init specWithDefault [("B", 1)]).2 = .ok d ∧
      dget d "t" = some (.v 2))
    ∧ (∃ d, (dep_init specWithDefault [("B", 1), ("t", 5)]).2 = .ok d ∧
      dget d "t" = some (.v 5)) := by
  constructor
  · exact (C6_default_values specWithDefault [("B", 1)] "Bound"
      "with_default" ["B", "t"] [("t", 2)] "t" rfl rfl rfl rfl
      (by decide) (by decide)
      (by decide)).1 2 (by decide) (by decide)
  · exact (C6_default_values specWithDefault [("B", 1), ("t", 5)] "Bound"
      "with_default" ["B", "t"] [("t", 2)] "t" rfl rfl rfl rfl
      (by decide) (by decide)
      (by decide)).2 5 (by decide)

/-- C7 is FALSE of the code: `args = self.default_parameters` followed by
`args.update(kwargs)` mutates the class-level `default_parameters` dict in
place.  Constructing with `B=1.0, t=5.0` (overriding the declared default
`t=2.0`) rewrites the class default to `t=5.0` and even merges `B` into it,
so a subsequent construction omitting `t` receives `5.0`, not the declared
`2.0` — and a subsequent construction with NO arguments at all succeeds. -/
theorem C7_construction_mutates_class_defaults :
    (dget (specWithDefault.default_parameters.getD []) "t" = some 2)
    ∧ ((dep_init specWithDefault [("B", 1), ("t", 5)]).1.default_parameters =
        some [("t", 5), ("B", 1)])
    ∧ ((dep_init (dep_init specWithDefault [("B", 1), ("t", 5)]).1
        [("B", 1)]).2.toOption.map (fun d => dget d "t") =
        some (some (.v 5)))
    ∧ ((dep_init (dep_init specWithDefault [("B", 1)]).1 []).2.isOk = true) := by
  refine ⟨by decide, by decide, by decide, by decide⟩

/-! ### Equality, repr and hash helpers -/

theorem pySubclass_refl (c : PyClass) : pySubclass c c = true := by
  cases c <;> rfl

/-- `pyEq` on two successfully constructed instances forces identical classes
and pointwise-equal instance dicts. -/
theorem pyEq_ok_elim {V : Type} [DecidableEq V] (a b : Inst V)
    (ca cb : PyClass) (kwa kwb : Dict V)
    (ha : construct ca kwa = .ok a) (hb : construct cb kwb = .ok b)
    (h : pyEq a b = true) :
    a.cls = b.cls ∧ ∀ k, dget a.dict k = dget b.dict k := by
  rw [pyEq, Bool.and_eq_true] at h
  obtain ⟨hsub, hdict⟩ := h
  obtain ⟨hacls, -, -, haleaf⟩ := construct_ok ca kwa a ha
  obtain ⟨hbcls, -, -, hbleaf⟩ := construct_ok cb kwb b hb
  have hcls : a.cls = b.cls := by
    rw [hacls, hbcls] at hsub ⊢
    rcases haleaf with rfl | rfl | rfl <;> rcases hbleaf with rfl | rfl | rfl <;>
      revert hsub <;> decide
  exact ⟨hcls, (dictEqB_iff _ _).1 hdict⟩

theorem reprParams_congr {V : Type} (reprV : V → String) (req : List String)
    (d1 d2 : Dict (PVal V)) (h : ∀ k, dget d1 k = dget d2 k) :
    reprParams reprV req d1 = reprParams reprV req d2 := by
  unfold reprParams
  have hf : (fun (acc : String) (p : String) =>
      acc ++ p ++ "=" ++ reprAttr reprV d1 p ++
        (if p = req.getLastD "" then "" else ", ")) =
      (fun (acc : String) (p : String) =>
      acc ++ p ++ "=" ++ reprAttr reprV d2 p ++
        (if p = req.getLastD "" then "" else ", ")) := by
    funext acc p
    rw [reprAttr, reprAttr, h p]
  rw [hf]

/-! ### Concrete instances used as witnesses -/

/-- `BoundConstant(B=1.0)`. -/
def constInst : Inst ℚ :=
  ⟨.boundConstant, [("required_conditions", .strList []), ("B", .v 1)]⟩

/-- A second, separately constructed `BoundConstant(B=1.0)`. -/
def constInstCopy : Inst ℚ :=
  ⟨.boundConstant, [("required_conditions", .strList []), ("B", .v 1)]⟩

/-- `BoundConstant(B=2.0)`. -/
def constInstB2 : Inst ℚ :=
  ⟨.boundConstant, [("required_conditions", .strList []), ("B", .v 2)]⟩

/-- `BoundCollapsingLinear(B=1.0, t=0.1)` built with kwargs in `B, t`
order. -/
def linInst : Inst ℚ :=
  ⟨.boundCollapsingLinear,
    [("required_conditions", .strList []), ("B", .v 1), ("t", .v (1/10))]⟩

/-- `BoundCollapsingLinear(B=2.0, t=0.5)` built with kwargs in `t, B`
order. -/
def linInstTB : Inst ℚ :=
  ⟨.boundCollapsingLinear,
    [("required_conditions", .strList []), ("t", .v (1/2)), ("B", .v 2)]⟩

/-- `BoundCollapsingExponential(B=1.0, tau=0.1)`. -/
noncomputable def expInst : Inst ℝ :=
  ⟨.boundCollapsingExponential,
    [("required_conditions", .strList []), ("B", .v 1), ("tau", .v (1/10))]⟩

/-! ### Claims C3, C4, C5, C8, C9, C10 -/

/-- C3: two constructed instances are `==`-equal iff they have the same
variant class and all their bound parameter values compare equal; the base
family classes are never constructible, so no instance of a base type
exists to compare equal to a concrete variant instance. -/
theorem C3_structural_equality {V : Type} [DecidableEq V] (a b : Inst V)
    (ca cb : PyClass) (kwa kwb : Dict V)
    (ha : construct ca kwa = .ok a) (hb : construct cb kwb = .ok b) :
    (pyEq a b = true ↔
      (a.cls = b.cls ∧ ∀ p ∈ reqOf a.cls, dget a.dict p = dget b.dict p))
    ∧ (∀ kw : Dict V, (construct (V := V) .dependence kw).isOk = false
        ∧ (construct (V := V) .bound kw).isOk = false) := by
  obtain ⟨hacls, -, -, haleaf⟩ := construct_ok ca kwa a ha
  obtain ⟨hbcls, -, -, hbleaf⟩ := construct_ok cb kwb b hb
  obtain ⟨hakeys, harc⟩ := construct_ok_dict ca kwa a ha
  obtain ⟨hbkeys, hbrc⟩ := construct_ok_dict cb kwb b hb
  constructor
  · constructor
    · intro h
      obtain ⟨hcls, hptw⟩ := pyEq_ok_elim a b ca cb kwa kwb ha hb h
      exact ⟨hcls, fun p _ => hptw p⟩
    · rintro ⟨hcls, hparams⟩
      have hccb : ca = cb := by rw [← hacls, hcls, hbcls]
      rw [pyEq, Bool.and_eq_true]
      refine ⟨by rw [← hcls]; exact pySubclass_refl a.cls, ?_⟩
      rw [dictEqB_iff]
      intro k
      by_cases hk1 : k = "required_conditions"
      · subst hk1; rw [harc, hbrc]
      · by_cases hk2 : k ∈ reqOf ca
        · exact hparams k (by rw [hacls]; exact hk2)
        · have h1 : dget a.dict k = none := (dget_eq_none_iff _ _).2
            (fun hm => by rcases (hakeys k).1 hm with h | h
                          · exact hk1 h
                          · exact hk2 h)
          have h2 : dget b.dict k = none := (dget_eq_none_iff _ _).2
            (fun hm => by rcases (hbkeys k).1 hm with h | h
                          · exact hk1 h
                          · exact hk2 (hccb ▸ h))
          rw [h1, h2]
  · intro kw
    exact ⟨rfl, rfl⟩

theorem C3_structural_equality_witness :
    pyEq constInst constInstCopy = true
    ∧ pyEq constInst constInstB2 = false := by
  constructor
  · exact (C3_structural_equality constInst constInstCopy .boundConstant
      .boundConstant [("B", 1)] [("B", 1)] rfl rfl).1.2 ⟨rfl, fun p _ => rfl⟩
  · have hiff := (C3_structural_equality constInst constInstB2 .boundConstant
      .boundConstant [("B", 1)] [("B", 2)] rfl rfl).1
    cases hpe : pyEq constInst constInstB2 with
    | false => rfl
    | true =>
      have h2 := (hiff.1 hpe).2 "B" (by decide)
      exact absurd h2 (by decide)

/-- C4: the hash of an instance is `hash` applied to its rendered string,
so `==`-equal constructed instances render identically (also via `str`) and
hash identically. -/
theorem C4_hash_from_repr {V : Type} [DecidableEq V] (reprV : V → String)
    (a b : Inst V) (ca cb : PyClass) (kwa kwb : Dict V)
    (ha : construct ca kwa = .ok a) (hb : construct cb kwb = .ok b) :
    pyHash reprV a = (reprInst reprV a).hash
    ∧ (pyEq a b = true →
        strInst reprV a = strInst reprV b ∧ pyHash reprV a = pyHash reprV b) := by
  refine ⟨rfl, fun h => ?_⟩
  obtain ⟨hcls, hptw⟩ := pyEq_ok_elim a b ca cb kwa kwb ha hb h
  have hrepr : reprInst reprV a = reprInst reprV b := by
    unfold reprInst
    rw [hcls, reprParams_congr reprV _ a.dict b.dict hptw]
  exact ⟨hrepr, congrArg String.hash hrepr⟩

theorem C4_hash_from_repr_witness :
    pyHash pyFloatRepr constInst = (reprInst pyFloatRepr constInst).hash
    ∧ strInst pyFloatRepr constInst = strInst pyFloatRepr constInstCopy
    ∧ pyHash pyFloatRepr constInst = pyHash pyFloatRepr constInstCopy := by
  have h := C4_hash_from_repr pyFloatRepr constInst constInstCopy
    .boundConstant .boundConstant [("B", 1)] [("B", 1)] rfl rfl
  have h2 := h.2 (by decide)
  exact ⟨h.1, h2.1, h2.2⟩

/-- C5: a constructed variant renders as
`<VariantClassName>(<p1>=<repr(v1)>, <p2>=<repr(v2)>, ...)` with the
parameters in `required_parameters` order (regardless of keyword order at
construction), and in particular `BoundConstant` built with `B = 1.0`
renders as `"BoundConstant(B=1.0)"` (with `str` agreeing with `repr`). -/
theorem C5_repr_format :
    (∀ (V : Type) (reprV : V → String) (b : V) (i : Inst V),
      construct .boundConstant [("B", b)] = .ok i →
      reprInst reprV i = "BoundConstant(B=" ++ reprV b ++ ")")
    ∧ (∀ (V : Type) (reprV : V → String) (b s : V) (i : Inst V),
      construct .boundCollapsingLinear [("t", s), ("B", b)] = .ok i →
      reprInst reprV i =
        "BoundCollapsingLinear(B=" ++ reprV b ++ ", t=" ++ reprV s ++ ")")
    ∧ (∀ (V : Type) (reprV : V → String) (b u : V) (i : Inst V),
      construct .boundCollapsingExponential [("B", b), ("tau", u)] = .ok i →
      reprInst reprV i =
        "BoundCollapsingExponential(B=" ++ reprV b ++ ", tau=" ++ reprV u ++ ")")
    ∧ (∀ i : Inst ℚ, construct .boundConstant [("B", 1)] = .ok i →
      reprInst pyFloatRepr i = "BoundConstant(B=1.0)"
      ∧ strInst pyFloatRepr i = reprInst pyFloatRepr i) := by
  refine ⟨?_, ?_, ?_, ?_⟩
  · intro V reprV b i h
    have h2 : (construct (V := V) .boundConstant [("B", b)]) =
        .ok ⟨.boundConstant,
          [("required_conditions", PVal.strList []), ("B", .v b)]⟩ := rfl
    rw [h2] at h
    injection h with h
    subst h
    apply String.ext
    simp [reprInst, classSpec, reprParams, reprAttr, reprPVal, dget,
      List.getLastD, String.data_append]
  · intro V reprV b s i h
    have h2 : (construct (V := V) .boundCollapsingLinear [("t", s), ("B", b)]) =
        .ok ⟨.boundCollapsingLinear,
          [("required_conditions", PVal.strList []), ("t", .v s),
            ("B", .v b)]⟩ := rfl
    rw [h2] at h
    injection h with h
    subst h
    apply String.ext
    simp [reprInst, classSpec, reprParams, reprAttr, reprPVal, dget,
      List.getLastD, String.data_append]
  · intro V reprV b u i h
    have h2 : (construct (V := V) .boundCollapsingExponential
        [("B", b), ("tau", u)]) =
        .ok ⟨.boundCollapsingExponential,
          [("required_conditions", PVal.strList []), ("B", .v b),
            ("tau", .v u)]⟩ := rfl
    rw [h2] at h
    injection h with h
    subst h
    apply String.ext
    simp [reprInst, classSpec, reprParams, reprAttr, reprPVal, dget,
      List.getLastD, String.data_append]
  · intro i h
    have h2 : (construct (V := ℚ) .boundConstant [("B", 1)]) =
        .ok ⟨.boundConstant,
          [("required_conditions", PVal.strList []), ("B", .v 1)]⟩ := rfl
    rw [h2] at h
    injection h with h
    subst h
    exact ⟨by decide, rfl⟩

theorem C5_repr_format_witness :
    reprInst pyFloatRepr constInst = "BoundConstant(B=1.0)"
    ∧ reprInst pyFloatRepr linInstTB =
        "BoundCollapsingLinear(B=" ++ pyFloatRepr 2 ++ ", t=" ++
          pyFloatRepr (1/2) ++ ")" := by
  constructor
  · exact (C5_repr_format.2.2.2 constInst rfl).1
  · exact C5_repr_format.2.1 ℚ pyFloatRepr 2 (1/2) linInstTB rfl

/-- C8: the linearly collapsing bound evaluates to
`max(B - slope·t_query, 0)` (the slope is the parameter named `t`), hence is
never negative. -/
theorem C8_collapsing_linear (b s : ℚ) (i : Inst ℚ)
    (h : construct .boundCollapsingLinear [("B", b), ("t", s)] = .ok i) :
    (∀ t, boundCollapsingLinear_get_bound i t = some (max (b - s * t) 0))
    ∧ (∀ t r, boundCollapsingLinear_get_bound i t = some r → 0 ≤ r) := by
  have h2 : (construct (V := ℚ) .boundCollapsingLinear [("B", b), ("t", s)]) =
      .ok ⟨.boundCollapsingLinear,
        [("required_conditions", PVal.strList []), ("B", .v b),
          ("t", .v s)]⟩ := rfl
  rw [h2] at h
  injection h with h
  subst h
  constructor
  · intro t; rfl
  · intro t r hr
    have h3 : (some (max (b - s * t) 0) : Option ℚ) = some r := hr
    injection h3 with h3
    rw [← h3]
    exact le_max_right _ _

theorem C8_collapsing_linear_witness :
    construct .boundCollapsingLinear [("B", (1 : ℚ)), ("t", 1/10)] =
      .ok linInst
    ∧ boundCollapsingLinear_get_bound linInst 5 = some (1/2)
    ∧ boundCollapsingLinear_get_bound linInst 20 = some 0 := by
  refine ⟨rfl, ?_, ?_⟩
  · rw [(C8_collapsing_linear 1 (1/10) linInst rfl).1 5]
    norm_num
  · rw [(C8_collapsing_linear 1 (1/10) linInst rfl).1 20]
    norm_num

/-- C9: the exponentially collapsing bound evaluates to
`B · exp(−tau·t_query)`; for positive `B` and `tau` it is strictly
decreasing in the time argument and strictly positive at every time, never
reaching zero. -/
theorem C9_collapsing_exponential (b tau : ℝ) (i : Inst ℝ)
    (h : construct .boundCollapsingExponential [("B", b), ("tau", tau)] =
      .ok i) :
    (∀ t, boundCollapsingExponential_get_bound i t =
      some (b * Real.exp (-tau * t)))
    ∧ (0 < b → 0 < tau →
        (∀ t1 t2 : ℝ, t1 < t2 →
          b * Real.exp (-tau * t2) < b * Real.exp (-tau * t1))
        ∧ (∀ t : ℝ, 0 < b * Real.exp (-tau * t))) := by
  have h2 : (construct (V := ℝ) .boundCollapsingExponential
      [("B", b), ("tau", tau)]) =
      .ok ⟨.boundCollapsingExponential,
        [("required_conditions", PVal.strList []), ("B", .v b),
          ("tau", .v tau)]⟩ := rfl
  rw [h2] at h
  injection h with h
  subst h
  refine ⟨fun t => rfl, fun hb htau => ⟨fun t1 t2 ht => ?_, fun t => ?_⟩⟩
  · have hm : -tau * t2 < -tau * t1 := by nlinarith
    exact mul_lt_mul_of_pos_left (Real.exp_lt_exp.mpr hm) hb
  · positivity

theorem C9_collapsing_exponential_witness :
    construct .boundCollapsingExponential [("B", (1 : ℝ)), ("tau", 1/10)] =
      .ok expInst
    ∧ boundCollapsingExponential_get_bound expInst 0 = some 1
    ∧ 0 < 1 * Real.exp (-(1/10 : ℝ) * 5)
    ∧ 1 * Real.exp (-(1/10 : ℝ) * 7) < 1 * Real.exp (-(1/10 : ℝ) * 5) := by
  have h := C9_collapsing_exponential 1 (1/10) expInst rfl
  have h2 := h.2 (by norm_num) (by norm_num)
  refine ⟨rfl, ?_, h2.2 5, h2.1 5 7 (by norm_num)⟩
  rw [h.1 0]
  norm_num

/-- C10: a constructed instance's `__dict__` holds exactly the required
parameters plus `required_conditions` (bound to the empty list via the
`object.__setattr__` bypass); a successful later `setattr` cannot add a new
key, and `delattr` always fails, so no other instance attribute can ever
exist. -/
theorem C10_instance_attribute_set {V : Type} (c : PyClass) (kwargs : Dict V)
    (i : Inst V) (h : construct c kwargs = .ok i) :
    (∀ k, k ∈ dkeys i.dict ↔ (k = "required_conditions" ∨ k ∈ reqOf c))
    ∧ dget i.dict "required_conditions" = some (.strList [])
    ∧ (∀ n x d2, dep_setattr (reqOf c) i.dict n x = .ok d2 →
        ∀ k, (k ∈ dkeys d2 ↔ k ∈ dkeys i.dict))
    ∧ (∀ n, dep_delattr i.dict n = .error .lookupError) := by
  obtain ⟨hkeys, hrc⟩ := construct_ok_dict c kwargs i h
  refine ⟨hkeys, hrc, ?_, fun n => rfl⟩
  intro n x d2 hset k
  rw [dep_setattr] at hset
  by_cases hn : n ∈ reqOf c
  · rw [if_pos hn] at hset
    injection hset with hset
    subst hset
    rw [mem_dkeys_dset]
    constructor
    · rintro (rfl | hk)
      · exact (hkeys k).2 (Or.inr hn)
      · exact hk
    · exact Or.inr
  · rw [if_neg hn] at hset
    cases hset

theorem C10_instance_attribute_set_witness :
    ("B" ∈ dkeys constInst.dict)
    ∧ ("extra" ∉ dkeys constInst.dict)
    ∧ dget constInst.dict "required_conditions" = some (.strList [])
    ∧ dep_delattr constInst.dict "B" = .error .lookupError := by
  have h := C10_instance_attribute_set .boundConstant [("B", (1 : ℚ))]
    constInst rfl
  refine ⟨(h.1 "B").2 (Or.inr (by decide)), ?_, h.2.1, h.2.2.2 "B"⟩
  intro hmem
  rcases (h.1 "extra").1 hmem with h2 | h2
  · exact absurd h2 (by decide)
  · exact absurd h2 (by decide)

end PyDDM
